import Mathlib

/-!
Shallow embedding of the `homebrew-tui` application core (src/app.rs, src/brew.rs).

Strings coming from the subprocess and from key input are ASCII in every
scenario considered here; the Rust code indexes them by byte, which for ASCII
coincides with indexing by character, so log lines are modelled as `String` /
`List Char` with character indices.  Channel sends, thread spawns and
subprocess execution are external effects: an operation-runner thread is
modelled as the list of events it posts, parameterised by the subprocess
outcome, and `brew list` invocations are modelled by a `SpawnResult` oracle.
-/

namespace HomebrewTui

/-- Mirror of `InstalledInfo` from src/brew.rs (only the `version` field is
kept by the program). -/
structure InstalledInfo where
  version : String
deriving Repr, DecidableEq

/-- The opaque `versions` JSON blob of a formula: the program never inspects
it, so it is carried as raw text. -/
abbrev JsonValue := String

/-- Mirror of `FormulaInfo` from src/brew.rs. -/
structure FormulaInfo where
  name : String
  full_name : Option String := none
  desc : Option String := none
  homepage : Option String := none
  license : Option String := none
  dependencies : List String := []
  installed : List InstalledInfo := []
  versions : Option JsonValue := none
  caveats : Option String := none
deriving Repr, DecidableEq

/-- Mirror of `FormulaInfo::default()` with the `name` field set, as built by
`Brew::list_installed`'s plain-text path. -/
def FormulaInfo.mkName (n : String) : FormulaInfo := { name := n }

/-- Mirror of `InputAction` from src/app.rs. -/
inductive InputAction where
  | install
  | search
deriving Repr, DecidableEq

/-- Mirror of `ConfirmAction` from src/app.rs. -/
inductive ConfirmAction where
  | install
  | uninstall
  | upgrade
  | bulkUpgrade (pkgs : List String)
  | installBrew
deriving Repr, DecidableEq

/-- Mirror of `Mode` from src/app.rs. -/
inductive Mode where
  | normal
  | help
  | input (action : InputAction) (buffer : String)
  | confirm (action : ConfirmAction) (name : String) (idx : Option Nat)
  | searchResults (results : List String) (selected : Nat)
  | outdated (packages : List String) (cursor : Nat) (checked : List Bool)
      (scroll : Nat)
  | operation (title : String) (logs : List String) (scroll : Nat)
deriving Repr, DecidableEq

/-- Mirror of `Focus` from src/app.rs. -/
inductive Focus where
  | installed
  | available
deriving Repr, DecidableEq

/-- Mirror of `AppEvent` from src/app.rs. -/
inductive AppEvent where
  | status (s : String)
  | brewList (list : List FormulaInfo)
  | brewInfo (info : FormulaInfo) (idx : Nat)
  | brewInfoAvailable (info : FormulaInfo) (idx : Nat)
  | log (l : String)
  | opStart (title : String)
  | opLog (line : String)
  | opEnd (title : String)
  | showConfirm (action : ConfirmAction) (name : String) (idx : Option Nat)
  | searchResults (results : List String)
  | outdatedList (list : List String)
  | availableList (list : List String)
deriving Repr, DecidableEq

/-- The mutable state of `App` (src/app.rs).  The channel endpoints and the
`Brew` handle are not data; `last_refreshed` stores an external clock reading,
kept here only as "has been set".  `spinner_idx` and the loading flags are
included for completeness. -/
structure App where
  items : List FormulaInfo
  available_items : List String
  outdated_items : List String
  selected : Nat
  available_selected : Nat
  last_selected : Option (Focus × Nat)
  available_details : Option FormulaInfo
  available_filter : String
  available_filtered : List Nat
  last_refreshed : Option Unit
  operation_status : Option String
  operation_percent : Option Nat
  spinner_idx : Nat
  loading_installed : Bool
  loading_available : Bool
  operating : Bool
  status : String
  logs : List String
  mode : Mode
  focus : Focus
deriving Repr, DecidableEq

/-- The initial state built by `App::new` (src/app.rs lines 184–208). -/
def initApp : App where
  items := []
  available_items := []
  outdated_items := []
  selected := 0
  available_selected := 0
  last_selected := none
  available_details := none
  available_filter := ""
  available_filtered := []
  last_refreshed := none
  operation_status := none
  operation_percent := none
  spinner_idx := 0
  loading_installed := true
  loading_available := true
  operating := false
  status := "Starting..."
  logs := []
  mode := .normal
  focus := .installed

/-- Digit run to number, most significant digit first. -/
def digitsToNat (ds : List Char) : Nat :=
  ds.foldl (fun acc c => acc * 10 + (c.toNat - '0'.toNat)) 0

/-- Rust's `str::parse::<u16>()` on a (possibly empty) string of ASCII
digits: errs on the empty string and on values that overflow 16 bits. -/
def parseU16 (ds : List Char) : Option Nat :=
  if ds = [] then none
  else
    let v := digitsToNat ds
    if v ≤ 65535 then some v else none

/-- The maximal contiguous run of digit characters immediately preceding the
first `%` of `s` (meaningful only when `s` contains `%`). -/
def maxDigitRun (s : List Char) : List Char :=
  ((s.takeWhile (fun c => c ≠ '%')).reverse.takeWhile Char.isDigit).reverse

/-- Mirror of `App::parse_percent` (src/app.rs lines 308–333): find the first `%`, scan
left for contiguous ASCII digits, parse as `u16`, clamp to 100. -/
def parsePercent (s : List Char) : Option Nat :=
  if s.contains '%' then
    match parseU16 (maxDigitRun s) with
    | some v => some (if v > 100 then 100 else v)
    | none => none
  else none

/-- The inline percent extraction of the run-loop event drain (src/app.rs
lines 400–416): take the window of (up to) four characters before the first
`%` plus the `%` itself, keep digits and `%`, and if the result still ends in
`%` parse all kept digits as `u16` and clamp. -/
def parsePercentRunLoop (s : List Char) : Option Nat :=
  if s.contains '%' then
    let pctPos := (s.takeWhile (fun c => c ≠ '%')).length
    let start := if pctPos ≥ 4 then pctPos - 4 else 0
    let candidate := (s.take (pctPos + 1)).drop start
    let filtered := candidate.filter (fun c => c.isDigit || c = '%')
    if filtered.getLast? = some '%' then
      match parseU16 (filtered.filter Char.isDigit) with
      | some v => some (if v > 100 then 100 else v)
      | none => none
    else none
  else none

/-- Modelled from the spec: "scan each streamed operation log line for a `%`
character; take the maximal contiguous run of digit characters immediately
preceding it; parse as an integer, clamp to [0,100]" — with an unbounded
integer parse, for comparison with the code's `u16` parse. -/
def specPercent (s : List Char) : Option Nat :=
  if s.contains '%' then
    let ds := maxDigitRun s
    if ds = [] then none else some (min (digitsToNat ds) 100)
  else none

/-- Version of `parse_percent` on `String`. -/
def parsePercentStr (s : String) : Option Nat := parsePercent s.data

/-- The run-loop percent extraction lifted to `String`. -/
def parsePercentRunLoopStr (s : String) : Option Nat := parsePercentRunLoop s.data

/-- Mirror of `App::push_log` (src/app.rs lines 299–304): append, and once the length
exceeds 300 drain the oldest 100 entries. -/
def pushLog (logs : List String) (s : String) : List String :=
  let l := logs ++ [s]
  if l.length > 300 then l.drop 100 else l

/-- The mode update performed by the `OpLog` arm (src/app.rs lines 256–266 and
identically 385–397): push the line onto an `Operation` mode's log, and once
the length exceeds 2000 drain the oldest 500 lines and re-clamp the scroll
offset; any other mode is untouched. -/
def opLogMode (m : Mode) (line : String) : Mode :=
  match m with
  | .operation t logs sc =>
      let logs1 := logs ++ [line]
      if logs1.length > 2000 then
        let logs2 := logs1.drop 500
        .operation t logs2 (if sc > logs2.length then logs2.length else sc)
      else .operation t logs1 sc
  | m => m

/-- Rust `str::contains` (substring containment) on character lists. -/
def listContainsSub (hay needle : List Char) : Bool :=
  hay.tails.any (fun t => needle.isPrefixOf t)

/-- Rust `str::contains` (substring containment) on `String`. -/
def strContains (hay needle : String) : Bool :=
  listContainsSub hay.data needle.data

/-- The filtered-index recomputation used by the Search input branches
(src/app.rs lines 782–793, 812–824, 858–870): the indices of the available
names containing the filter substring, in original order. -/
def computeFiltered (names : List String) (flt : String) : List Nat :=
  names.enum.filterMap (fun p => if strContains p.2 flt then some p.1 else none)

/-- Index-carrying recursive form of `computeFiltered` (the enumerate /
filter-map pipeline fused), used for induction. -/
def computeFilteredAux (n : Nat) (names : List String) (flt : String) :
    List Nat :=
  match names with
  | [] => []
  | x :: xs =>
      if strContains x flt then n :: computeFilteredAux (n + 1) xs flt
      else computeFilteredAux (n + 1) xs flt

/-- Mirror of `App::handle_event` (src/app.rs lines 213–297), parameterised by the
percent extractor used in the `OpLog` arm: the run loop's event drain
(lines 341–441) duplicates `handle_event` verbatim except that its `OpLog`
arm extracts the percentage inline with a different rule.  Thread spawns
(the reactive outdated refresh in the `BrewList` arm) and the clock write to
`last_refreshed` are external effects; only the state mutations are kept. -/
def handleEventWith (pct : String → Option Nat) (a : App) (ev : AppEvent) : App :=
  match ev with
  | .brewList list =>
      { a with
        items := list
        status := "Loaded " ++ toString list.length ++ " packages"
        last_refreshed := some ()
        loading_installed := false
        last_selected := none }
  | .brewInfo info idx =>
      { a with
        items := if idx < a.items.length then a.items.set idx info else a.items
        last_selected := some (.installed, idx) }
  | .brewInfoAvailable info idx =>
      { a with
        available_details := some info
        last_selected := some (.available, idx) }
  | .status s => { a with status := s }
  | .outdatedList list => { a with outdated_items := list }
  | .log l => { a with logs := pushLog a.logs l }
  | .opStart title =>
      { a with
        mode := .operation title [] 0
        logs := pushLog a.logs ("Started: " ++ title)
        operating := true
        operation_percent := none }
  | .opLog line =>
      let a2 := { a with mode := opLogMode a.mode line, logs := pushLog a.logs line }
      match pct line with
      | some p =>
          { a2 with
            operation_status := some (toString p ++ "%")
            operation_percent := some p }
      | none => a2
  | .opEnd title =>
      { a with
        logs := pushLog a.logs ("Finished: " ++ title)
        operation_status := none
        operation_percent := none
        operating := false }
  | .searchResults results => { a with mode := .searchResults results 0 }
  | .availableList list =>
      { a with
        available_items := list
        status := "Loaded " ++ toString list.length ++ " available packages"
        last_refreshed := some ()
        loading_available := false
        available_filtered := List.range list.length }
  | .showConfirm action name idx => { a with mode := .confirm action name idx }

/-- Dispatch of `App::handle_event` itself, which calls `App::parse_percent`. -/
def handleEvent : App → AppEvent → App := handleEventWith parsePercentStr

/-- The run loop's inline event drain (src/app.rs lines 341–441), whose
`OpLog` arm uses the windowed percent extraction. -/
def handleEventRun : App → AppEvent → App := handleEventWith parsePercentRunLoopStr

/-- Apply a sequence of events in order with `App::handle_event`. -/
def applyEvents (a : App) (evs : List AppEvent) : App :=
  evs.foldl handleEvent a

/-- Embedding of the `KeyCode::Char(c)` branch of the Search input modal (src/app.rs lines
855–876): push the character onto the buffer, commit it as the live filter,
recompute the filtered indices, snap the selection to the first match when one
exists, and reinstall the `Input` mode. -/
def inputSearchChar (a : App) (buffer : String) (c : Char) : App :=
  let buffer1 := buffer.push c
  let filtered := computeFiltered a.available_items buffer1
  { a with
    available_filter := buffer1
    available_filtered := filtered
    available_selected :=
      match filtered.head? with
      | some i => i
      | none => a.available_selected
    mode := .input .search buffer1 }

/-- The Normal-mode `F` key (src/app.rs lines 1128–1131): clear the filter
and reset the filtered indices to the identity sequence. -/
def clearFilter (a : App) : App :=
  { a with
    available_filter := ""
    available_filtered := List.range a.available_items.length }

/-- Outcome of spawning and awaiting a subprocess, as observed by an
operation-runner thread: the spawn itself may fail, `wait` may fail, or the
child exits with a status (`disp` is the status's display text used in the
failure message). -/
inductive ProcOutcome where
  | spawnFailed (err : String)
  | waitFailed (err : String)
  | exited (success : Bool) (disp : String)
deriving Repr, DecidableEq

/-- Rust `Vec::join(" ")`. -/
def joinSpace : List String → String
  | [] => ""
  | [x] => x
  | x :: xs => x ++ " " ++ joinSpace xs

/-- Embedding of the `(verb, args)` mapping of the accepted-Confirm runner (src/app.rs
lines 670–684).  `InstallBrew` is unreachable here in the source (it returns
earlier) but the match arm exists as the catch-all. -/
def brewVerbArgs (action : ConfirmAction) (name : String) : String × List String :=
  match action with
  | .uninstall => ("uninstall", [name])
  | .upgrade => ("upgrade", [name])
  | .install => ("install", [name])
  | .bulkUpgrade pkgs => ("upgrade", pkgs)
  | .installBrew => ("", [])

/-- The events posted by the Homebrew-bootstrap operation runner thread
(src/app.rs lines 627–667), by subprocess outcome.  The stdout/stderr reader
threads post only `OpLog` events and are not part of this sequence. -/
def installBrewRunnerEvents (o : ProcOutcome) : List AppEvent :=
  let title := "install-homebrew"
  [AppEvent.opStart title] ++
    (match o with
      | .exited true _ => [AppEvent.status (title ++ " completed")]
      | .exited false disp => [AppEvent.log (title ++ " failed: " ++ disp)]
      | .waitFailed e => [AppEvent.log ("failed waiting for installer: " ++ e)]
      | .spawnFailed e => [AppEvent.log ("failed to spawn installer: " ++ e)]) ++
    [AppEvent.opEnd title]

/-- The events posted by the brew-verb operation runner thread (src/app.rs
lines 669–762), by subprocess outcome.  `reload` is the result of the
`Brew::new().list_installed()` call made only in the success branch
(`none` when that reload itself fails). -/
def brewOpRunnerEvents (action : ConfirmAction) (name : String)
    (o : ProcOutcome) (reload : Option (List FormulaInfo)) : List AppEvent :=
  let va := brewVerbArgs action name
  let title :=
    if va.1 = "" then "brew op" else "brew " ++ va.1 ++ " " ++ joinSpace va.2
  [AppEvent.opStart title] ++
    (match o with
      | .exited true _ =>
          [AppEvent.status (title ++ " completed")] ++
            (match reload with
              | some list => [AppEvent.brewList list]
              | none => [])
      | .exited false disp => [AppEvent.log (title ++ " failed: " ++ disp)]
      | .waitFailed e => [AppEvent.opLog ("failed waiting for brew: " ++ e)]
      | .spawnFailed e => [AppEvent.opLog ("failed to spawn brew: " ++ e)]) ++
    [AppEvent.opEnd title]

/-- The events posted by the thread spawned on an accepted Confirm
(`y`/Enter, src/app.rs lines 618–762): the bootstrap action takes the
dedicated installer path and returns; every other action takes the brew-verb
path. -/
def confirmRunnerEvents (action : ConfirmAction) (name : String)
    (o : ProcOutcome) (reload : Option (List FormulaInfo)) : List AppEvent :=
  match action with
  | .installBrew => installBrewRunnerEvents o
  | _ => brewOpRunnerEvents action name o reload

/-- Recogniser for `OpStart` events. -/
def isOpStart : AppEvent → Bool
  | .opStart _ => true
  | _ => false

/-- Recogniser for `OpEnd` events. -/
def isOpEnd : AppEvent → Bool
  | .opEnd _ => true
  | _ => false

/-- Recogniser for `BrewList` events. -/
def isBrewList : AppEvent → Bool
  | .brewList _ => true
  | _ => false

/-- Result of spawning a process and reading its output: `err` when the
spawn fails, otherwise the exit-status flag and the (decoded) output. -/
inductive SpawnResult (α : Type) where
  | err (e : String)
  | ok (exitSuccess : Bool) (out : α)
deriving Repr, DecidableEq

/-- Split a character list at every newline; the accumulator holds the
current line reversed. -/
def splitLinesAux : List Char → List Char → List (List Char)
  | [], acc => [acc.reverse]
  | c :: cs, acc =>
      if c = '\n' then acc.reverse :: splitLinesAux cs []
      else splitLinesAux cs (c :: acc)

/-- Rust's `str::lines`: split at `\n`, drop the empty piece after a trailing
terminator, and strip one trailing `\r` from each line. -/
def rustLines (s : List Char) : List (List Char) :=
  let pieces := splitLinesAux s []
  let pieces := if pieces.getLast? = some [] then pieces.dropLast else pieces
  pieces.map (fun l => if l.getLast? = some '\r' then l.dropLast else l)

/-- ASCII whitespace (the fragment of Rust's `char::is_whitespace` relevant
to subprocess output). -/
def isWhitespaceChar (c : Char) : Bool :=
  c = ' ' || c = '\t' || c = '\n' || c = '\r'

/-- Rust's `str::trim` on a character list. -/
def trimChars (l : List Char) : List Char :=
  ((l.dropWhile isWhitespaceChar).reverse.dropWhile isWhitespaceChar).reverse

/-- The plain-text parse of `brew list --formula` output (src/brew.rs lines
51–60): split into lines, keep those that are non-empty after trimming, and
use each (untrimmed) line as a formula name. -/
def parsePlainNames (s : String) : List FormulaInfo :=
  ((rustLines s.data).filter (fun l => ¬ trimChars l = [])).map
    (fun l => FormulaInfo.mkName (String.mk l))

/-- The JSON fallback of `Brew::list_installed` (src/brew.rs lines 67–87):
reissue with `--json=v2`; fail on spawn failure or nonzero exit; decode a
`{"formulae": [...]}` envelope (the serde decode is the `Option` payload of
the oracle), failing when it is malformed. -/
def jsonFallback (second : SpawnResult (Option (List FormulaInfo))) :
    Except String (List FormulaInfo) :=
  match second with
  | .err e => .error ("failed to run brew list --json: " ++ e)
  | .ok st dec =>
      if st then
        match dec with
        | some list => .ok list
        | none => .error "json decode error"
      else .error "brew list failed: <stderr>"

/-- Mirror of `Brew::list_installed` (src/brew.rs lines 41–88) over the two subprocess
runs it may make: return the plain-text names when the first run spawned,
exited successfully and parsed to at least one name; otherwise fall back to
the JSON path (never reached when the first spawn fails). -/
def listInstalled (first : SpawnResult String)
    (second : SpawnResult (Option (List FormulaInfo))) :
    Except String (List FormulaInfo) :=
  match first with
  | .err e => .error ("failed to run brew list --formula: " ++ e)
  | .ok st out =>
      let formulas := parsePlainNames out
      if st ∧ formulas ≠ [] then .ok formulas
      else jsonFallback second

/-- Recogniser for the error case of a result. -/
def isErr : Except String (List FormulaInfo) → Bool
  | .error _ => true
  | .ok _ => false

/-! ## Theorems -/

theorem enumFrom_filterMap_eq_aux (flt : String) :
    ∀ (names : List String) (n : Nat),
      (List.enumFrom n names).filterMap
        (fun p => if strContains p.2 flt then some p.1 else none) =
      computeFilteredAux n names flt := by
  intro names
  induction names with
  | nil => intro n; rfl
  | cons x xs ih =>
      intro n
      simp only [List.enumFrom, List.filterMap_cons, computeFilteredAux]
      by_cases h : strContains x flt
      · simp [h, ih]
      · simp [h, ih]

theorem computeFiltered_eq_aux (names : List String) (flt : String) :
    computeFiltered names flt = computeFilteredAux 0 names flt := by
  unfold computeFiltered List.enum
  exact enumFrom_filterMap_eq_aux flt names 0

theorem mem_computeFilteredAux_bounds :
    ∀ (names : List String) (n : Nat) (flt : String) (i : Nat),
      i ∈ computeFilteredAux n names flt → n ≤ i ∧ i < n + names.length := by
  intro names
  induction names with
  | nil => intro n flt i h; simp [computeFilteredAux] at h
  | cons x xs ih =>
      intro n flt i h
      simp only [computeFilteredAux] at h
      by_cases hx : strContains x flt
      · simp only [hx, if_true, List.mem_cons] at h
        rcases h with rfl | h
        · simp only [List.length_cons]
          omega
        · have := ih (n + 1) flt i h
          simp only [List.length_cons]
          omega
      · simp only [hx, if_false] at h
        have := ih (n + 1) flt i h
        simp only [List.length_cons]
        omega

theorem computeFilteredAux_pairwise :
    ∀ (names : List String) (n : Nat) (flt : String),
      (computeFilteredAux n names flt).Pairwise (· < ·) := by
  intro names
  induction names with
  | nil => intro n flt; simp [computeFilteredAux]
  | cons x xs ih =>
      intro n flt
      simp only [computeFilteredAux]
      by_cases hx : strContains x flt
      · simp only [hx, if_true]
        refine List.Pairwise.cons ?_ (ih (n + 1) flt)
        intro i hi
        have := mem_computeFilteredAux_bounds xs (n + 1) flt i hi
        omega
      · simp only [hx, if_false]
        exact ih (n + 1) flt

theorem mem_computeFilteredAux_iff :
    ∀ (names : List String) (n : Nat) (flt : String) (i : Nat),
      i ∈ computeFilteredAux n names flt ↔
        ∃ j, j < names.length ∧ i = n + j ∧
          strContains (names.getD j "") flt := by
  intro names
  induction names with
  | nil => intro n flt i; simp [computeFilteredAux]
  | cons x xs ih =>
      intro n flt i
      simp only [computeFilteredAux]
      constructor
      · intro h
        by_cases hx : strContains x flt
        · simp only [hx, if_true, List.mem_cons] at h
          rcases h with rfl | h
          · exact ⟨0, by simp, by simp, by simpa using hx⟩
          · rcases (ih (n + 1) flt i).1 h with ⟨j, hj, rfl, hP⟩
            exact ⟨j + 1, by simp; omega, by omega, by simpa using hP⟩
        · simp only [hx, if_false] at h
          rcases (ih (n + 1) flt i).1 h with ⟨j, hj, rfl, hP⟩
          exact ⟨j + 1, by simp; omega, by omega, by simpa using hP⟩
      · rintro ⟨j, hj, rfl, hP⟩
        cases j with
        | zero =>
            have hx : strContains x flt := by simpa using hP
            simp [hx]
        | succ j =>
            have hmem : n + (j + 1) ∈ computeFilteredAux (n + 1) xs flt := by
              rw [ih (n + 1) flt (n + (j + 1))]
              exact ⟨j, by simpa using hj, by omega, by simpa using hP⟩
            by_cases hx : strContains x flt
            · simp only [hx, if_true, List.mem_cons]
              exact Or.inr hmem
            · simpa [hx] using hmem

theorem listContainsSub_nil (hay : List Char) : listContainsSub hay [] = true := by
  unfold listContainsSub
  rw [List.any_eq_true]
  refine ⟨[], ?_, rfl⟩
  simp [List.mem_tails]

theorem strContains_empty (hay : String) : strContains hay "" = true :=
  listContainsSub_nil hay.data

theorem computeFilteredAux_empty_filter :
    ∀ (names : List String) (n : Nat),
      computeFilteredAux n names "" = List.range' n names.length := by
  intro names
  induction names with
  | nil => intro n; rfl
  | cons x xs ih =>
      intro n
      simp only [computeFilteredAux, strContains_empty, if_true,
        List.length_cons, List.range'_succ]
      rw [ih]

theorem computeFiltered_empty_filter (names : List String) :
    computeFiltered names "" = List.range names.length := by
  rw [computeFiltered_eq_aux, computeFilteredAux_empty_filter,
    List.range_eq_range']

/-- C1 (counterexample): the two extraction paths do not implement the same
rule — on the line `"1a23%"` the `handle_event` path (`parse_percent`) takes
the maximal contiguous digit run `"23"` and yields 23, while the run-loop
path collects every digit in its four-character window and yields 100; and
`parse_percent` does not implement the claimed unbounded-integer-then-clamp
rule either, returning nothing on `"70000%"` where that rule clamps to 100. -/
theorem percent_extraction_paths_differ :
    parsePercentStr "1a23%" = some 23
    ∧ parsePercentRunLoopStr "1a23%" = some 100
    ∧ parsePercentStr "70000%" = none
    ∧ specPercent ("70000%".data) = some 100 :=
  ⟨by decide, by decide, by decide, by decide⟩

/-- C1 (amended): `parse_percent` follows the first-`%`/maximal-digit-run/
clamp rule whenever the digit run fits in 16 bits (its parse is a `u16`
parse), and the four example lines behave as listed under both the
`handle_event` path and the run-loop path; the two paths differ in general. -/
theorem percent_extraction_amended :
    (∀ s : List Char, digitsToNat (maxDigitRun s) ≤ 65535 →
        parsePercent s = specPercent s)
    ∧ parsePercentStr "abc 7%" = some 7
    ∧ parsePercentRunLoopStr "abc 7%" = some 7
    ∧ parsePercentStr "no percent here" = none
    ∧ parsePercentRunLoopStr "no percent here" = none
    ∧ parsePercentStr "150% done" = some 100
    ∧ parsePercentRunLoopStr "150% done" = some 100
    ∧ parsePercentStr "%" = none
    ∧ parsePercentRunLoopStr "%" = none := by
  refine ⟨?_, by decide, by decide, by decide, by decide, by decide, by decide,
    by decide, by decide⟩
  intro s h
  unfold parsePercent specPercent parseU16
  by_cases hc : s.contains '%'
  · simp only [hc, if_true]
    by_cases he : maxDigitRun s = []
    · simp [he]
    · simp only [he, if_false, h, if_true]
      rcases Nat.lt_or_ge 100 (digitsToNat (maxDigitRun s)) with hv | hv
      · simp [Nat.min_def, hv, Nat.le_of_lt, Nat.not_le.mpr hv]
      · simp [Nat.min_def, hv, Nat.not_lt.mpr hv]
  · simp at hc
    simp [hc]

/-- Witness for `percent_extraction_amended` at the line `"abc 7%"`. -/
theorem percent_extraction_amended_witness :
    digitsToNat (maxDigitRun ("abc 7%".data)) ≤ 65535
    ∧ parsePercent ("abc 7%".data) = specPercent ("abc 7%".data) :=
  ⟨by decide, percent_extraction_amended.1 _ (by decide)⟩

/-- C2 (counterexample): the cursors are not clamped when the underlying
collection is replaced — a `BrewList` event shrinking the installed list from
six entries to one leaves `selected` at 5, no longer a valid index, and an
`AvailableList` event shrinking the available list from three names to one
leaves `available_selected` at 2. -/
theorem cursor_not_clamped_on_list_replace :
    (handleEvent
        { initApp with
          items := List.replicate 6 (FormulaInfo.mkName "p"), selected := 5 }
        (.brewList [FormulaInfo.mkName "q"])).selected = 5
    ∧ (handleEvent
        { initApp with
          items := List.replicate 6 (FormulaInfo.mkName "p"), selected := 5 }
        (.brewList [FormulaInfo.mkName "q"])).items.length = 1
    ∧ (handleEvent
        { initApp with
          available_items := ["a", "b", "c"], available_selected := 2 }
        (.availableList ["x"])).available_selected = 2
    ∧ (handleEvent
        { initApp with
          available_items := ["a", "b", "c"], available_selected := 2 }
        (.availableList ["x"])).available_items.length = 1 :=
  ⟨rfl, rfl, rfl, rfl⟩

/-- C2 (amended): `BrewList` leaves `selected` unchanged and `AvailableList`
leaves `available_selected` unchanged (no clamping; out-of-range cursors are
tolerated by the checked `get` accesses elsewhere); the live-filter recompute
sets `available_selected` to the first filtered index when one exists —
which is a valid index of the available list — and leaves it unchanged
otherwise. -/
theorem cursor_frame_on_list_replace :
    ∀ (pct : String → Option Nat) (a : App) (list : List FormulaInfo)
      (names : List String) (buffer : String) (c : Char),
      (handleEventWith pct a (.brewList list)).selected = a.selected
      ∧ (handleEventWith pct a (.availableList names)).available_selected =
          a.available_selected
      ∧ (inputSearchChar a buffer c).available_selected =
          ((computeFiltered a.available_items (buffer.push c)).head?.getD
            a.available_selected)
      ∧ ((computeFiltered a.available_items (buffer.push c)).all
          (fun i => decide (i < a.available_items.length))) = true := by
  intro pct a list names buffer c
  refine ⟨rfl, rfl, ?_, ?_⟩
  · unfold inputSearchChar
    cases h : (computeFiltered a.available_items (buffer.push c)).head? <;>
      simp [h]
  · rw [List.all_eq_true]
    intro i hi
    rw [computeFiltered_eq_aux] at hi
    have := mem_computeFilteredAux_bounds a.available_items 0 (buffer.push c) i hi
    simpa using this.2

/-- C5 (counterexample): an `AvailableList` event arriving while the filter
text is `"git"` resets the filtered indices to the identity sequence over the
new list without consulting (or clearing) the filter, so the filtered view
`[0]` is not the set of matching indices (which is empty for `["vim"]`). -/
theorem available_filter_reset_ignores_filter :
    (handleEvent { initApp with available_filter := "git" }
        (.availableList ["vim"])).available_filtered = [0]
    ∧ (handleEvent { initApp with available_filter := "git" }
        (.availableList ["vim"])).available_filter = "git"
    ∧ computeFiltered ["vim"] "git" = [] :=
  ⟨rfl, rfl, by decide⟩

/-- C5 (amended): an `AvailableList` event always resets `available_filtered`
to the identity sequence over the new list, leaving the filter text in place
(so the matching-indices invariant holds after it only when the filter is
empty); the live-filter recompute does establish the invariant: it stores
exactly the indices of names containing the filter, each a valid index, in
strictly increasing (original) order; and the `F` key clears the filter and
resets the indices to the identity sequence, which for the empty filter is
again exactly the matching set. -/
theorem available_filtered_invariant_amended :
    ∀ (pct : String → Option Nat) (a : App) (names : List String)
      (buffer flt : String) (c : Char) (i : Nat),
      (handleEventWith pct a (.availableList names)).available_filtered =
          List.range names.length
      ∧ (handleEventWith pct a (.availableList names)).available_filter =
          a.available_filter
      ∧ (inputSearchChar a buffer c).available_filter = buffer.push c
      ∧ (inputSearchChar a buffer c).available_filtered =
          computeFiltered a.available_items (buffer.push c)
      ∧ (i ∈ computeFiltered names flt ↔
          i < names.length ∧ strContains (names.getD i "") flt)
      ∧ (computeFiltered names flt).Pairwise (· < ·)
      ∧ computeFiltered names "" = List.range names.length
      ∧ (clearFilter a).available_filter = ""
      ∧ (clearFilter a).available_filtered =
          List.range a.available_items.length := by
  intro pct a names buffer flt c i
  refine ⟨rfl, rfl, rfl, rfl, ?_, ?_, computeFiltered_empty_filter names,
    rfl, rfl⟩
  · rw [computeFiltered_eq_aux, mem_computeFilteredAux_iff]
    constructor
    · rintro ⟨j, hj, rfl, hP⟩
      exact ⟨by omega, by simpa using hP⟩
    · rintro ⟨hlt, hP⟩
      exact ⟨i, hlt, by omega, hP⟩
  · rw [computeFiltered_eq_aux]
    exact computeFilteredAux_pairwise names 0 flt

/-- C3: for every accepted Confirm action and every subprocess outcome
(success, nonzero exit, spawn failure, wait failure), the operation-runner
thread posts exactly one `OpEnd` event and exactly one `OpStart` event. -/
theorem operation_runner_exactly_one_opEnd :
    ∀ (action : ConfirmAction) (name : String) (o : ProcOutcome)
      (reload : Option (List FormulaInfo)),
      (confirmRunnerEvents action name o reload).countP isOpEnd = 1
      ∧ (confirmRunnerEvents action name o reload).countP isOpStart = 1 := by
  intro action name o reload
  cases action <;> rcases o with e | e | ⟨_ | _, d⟩ <;>
    rcases reload with _ | l <;> exact ⟨rfl, rfl⟩

/-- C4 (counterexample): an accepted BulkUpgrade whose subprocess exits
successfully does post a `BrewList` reload event (the bulk path runs through
the same success branch as the single-package verbs). -/
theorem bulk_upgrade_reloads_on_success :
    (confirmRunnerEvents (.bulkUpgrade ["a", "b"]) "2 packages"
        (.exited true "exit status: 0")
        (some [FormulaInfo.mkName "a"])).countP isBrewList = 1
    ∧ AppEvent.brewList [FormulaInfo.mkName "a"] ∈
        confirmRunnerEvents (.bulkUpgrade ["a", "b"]) "2 packages"
          (.exited true "exit status: 0") (some [FormulaInfo.mkName "a"]) :=
  ⟨rfl, by simp [confirmRunnerEvents, brewOpRunnerEvents, brewVerbArgs]⟩

/-- C4 (amended): every accepted brew-verb operation — install, upgrade,
uninstall, and also bulk upgrade — posts exactly one installed-list reload
(`BrewList`) after subprocess success whenever the reload read itself
succeeds, and none otherwise; only the bootstrap installer operation never
posts a reload. -/
theorem brewList_reload_characterization :
    ∀ (action : ConfirmAction) (name : String) (o : ProcOutcome)
      (reload : Option (List FormulaInfo)),
      (confirmRunnerEvents action name o reload).countP isBrewList =
        (match action, o, reload with
          | .installBrew, _, _ => 0
          | _, .exited true _, some _ => 1
          | _, _, _ => 0) := by
  intro action name o reload
  cases action <;> rcases o with e | e | ⟨_ | _, d⟩ <;>
    rcases reload with _ | l <;> rfl

/-- C6 (counterexample): the claim quantifies over any starting state, but
`operating` is not false before the event pair in every state — after an
initial `OpStart "a"` the flag is already true, and applying the pair
`OpStart "b"`, `OpEnd "b"` to that state starts from `operating = true`. -/
theorem operating_true_before_pair :
    (handleEvent initApp (.opStart "a")).operating = true
    ∧ (handleEvent (handleEvent initApp (.opStart "a"))
        (.opStart "b")).operating = true
    ∧ (handleEvent (handleEvent (handleEvent initApp (.opStart "a"))
        (.opStart "b")) (.opEnd "b")).operating = false :=
  ⟨rfl, rfl, rfl⟩

/-- C6 (amended): for every starting state, `operating` is true strictly
between an `OpStart` and the `OpEnd` that follows it and false after, and
`operationPercent` is cleared by the `OpEnd`; `operating` is false before the
pair exactly when the starting state already had it false, as the initial
state does. -/
theorem op_start_end_flag_amended :
    ∀ (a : App) (t t' : String),
      (handleEvent a (.opStart t)).operating = true
      ∧ (handleEvent (handleEvent a (.opStart t)) (.opEnd t')).operating =
          false
      ∧ (handleEvent (handleEvent a (.opStart t))
          (.opEnd t')).operation_percent = none
      ∧ initApp.operating = false := by
  intro a t t'
  exact ⟨rfl, rfl, rfl, rfl⟩

/-- C10: a `BrewInfo` event whose index is at least the installed list's
length leaves the installed list entirely unchanged, yet still records
`(Installed, idx)` as the last detail loaded; this holds for both copies of
the event dispatch (any percent extractor). -/
theorem brew_info_out_of_bounds_frame :
    ∀ (pct : String → Option Nat) (a : App) (info : FormulaInfo) (idx : Nat),
      a.items.length ≤ idx →
      (handleEventWith pct a (.brewInfo info idx)).items = a.items
      ∧ (handleEventWith pct a (.brewInfo info idx)).last_selected =
          some (.installed, idx) := by
  intro pct a info idx h
  refine ⟨?_, rfl⟩
  show (if idx < a.items.length then a.items.set idx info else a.items) =
    a.items
  rw [if_neg (Nat.not_lt.mpr h)]

/-- Witness for `brew_info_out_of_bounds_frame` at the initial (empty) state
and index 3. -/
theorem brew_info_out_of_bounds_frame_witness :
    initApp.items.length ≤ 3
    ∧ ((handleEventWith parsePercentStr initApp
          (.brewInfo (FormulaInfo.mkName "x") 3)).items = initApp.items
      ∧ (handleEventWith parsePercentStr initApp
          (.brewInfo (FormulaInfo.mkName "x") 3)).last_selected =
          some (.installed, 3)) :=
  ⟨by decide,
    brew_info_out_of_bounds_frame parsePercentStr initApp
      (FormulaInfo.mkName "x") 3 (by decide)⟩

theorem handleEvent_opLog_mode (pct : String → Option Nat) (a : App)
    (l : String) :
    (handleEventWith pct a (.opLog l)).mode = opLogMode a.mode l := by
  cases h : pct l <;> simp [handleEventWith, h]

theorem applyEvents_opLog_mode :
    ∀ (lines : List String) (a : App),
      (applyEvents a (lines.map .opLog)).mode = lines.foldl opLogMode a.mode := by
  intro lines
  induction lines with
  | nil => intro a; rfl
  | cons x xs ih =>
      intro a
      simp only [List.map_cons, applyEvents, List.foldl_cons]
      rw [show (xs.map AppEvent.opLog).foldl handleEvent
          (handleEvent a (.opLog x)) =
          applyEvents (handleEvent a (.opLog x)) (xs.map .opLog) from rfl]
      rw [ih,
        show (handleEvent a (.opLog x)).mode = opLogMode a.mode x from
          handleEvent_opLog_mode parsePercentStr a x]

theorem foldl_opLogMode_no_evict :
    ∀ (lines : List String) (t : String) (logs : List String) (sc : Nat),
      logs.length + lines.length ≤ 2000 →
      lines.foldl opLogMode (.operation t logs sc) =
        .operation t (logs ++ lines) sc := by
  intro lines
  induction lines with
  | nil => intro t logs sc h; simp
  | cons x xs ih =>
      intro t logs sc h
      simp only [List.foldl_cons]
      have hstep : opLogMode (.operation t logs sc) x =
          .operation t (logs ++ [x]) sc := by
        have hle : ¬ ((logs ++ [x]).length > 2000) := by
          simp only [List.length_append, List.length_cons, List.length_nil]
          simp only [List.length_cons] at h
          omega
        simp only [opLogMode]
        rw [if_neg hle]
      rw [hstep, ih t (logs ++ [x]) sc
        (by simp only [List.length_append, List.length_cons,
              List.length_nil] at h ⊢; omega)]
      simp

/-- C7: pushing 2001 `OpLog` events onto an `Operation` mode that starts with
an empty log leaves a log of exactly 1501 ≤ 2000 lines — the batch eviction
fired once, dropping precisely the 500 oldest lines — and the scroll offset
is clamped to the new length. -/
theorem operation_log_eviction :
    ∀ (a : App) (t : String) (sc : Nat) (xs : List String) (x : String),
      a.mode = .operation t [] sc → xs.length = 2000 →
      (applyEvents a ((xs ++ [x]).map .opLog)).mode =
          .operation t ((xs ++ [x]).drop 500) (min sc 1501)
      ∧ ((xs ++ [x]).drop 500).length ≤ 2000
      ∧ min sc 1501 ≤ ((xs ++ [x]).drop 500).length := by
  intro a t sc xs x hmode hlen
  have hdroplen : ((xs ++ [x]).drop 500).length = 1501 := by
    simp [hlen]
  refine ⟨?_, by omega, by rw [hdroplen]; exact Nat.min_le_right sc 1501⟩
  rw [applyEvents_opLog_mode, hmode, List.foldl_append,
    foldl_opLogMode_no_evict xs t [] sc (by simp [hlen])]
  simp only [List.nil_append, List.foldl_cons, List.foldl_nil]
  have h1 : (xs ++ [x]).length > 2000 := by simp [hlen]
  simp only [opLogMode]
  rw [if_pos h1, hdroplen]
  rcases le_or_lt sc 1501 with hsc | hsc
  · rw [if_neg (Nat.not_lt.mpr hsc), Nat.min_def, if_pos hsc]
  · rw [if_pos hsc, Nat.min_def, if_neg (Nat.not_le.mpr hsc)]

/-- Witness for `operation_log_eviction`: 2000 identical lines followed by a
final line, applied to the initial state put in Operation mode. -/
theorem operation_log_eviction_witness :
    ({ initApp with mode := .operation "op" [] 0 } : App).mode =
        .operation "op" [] 0
    ∧ (List.replicate 2000 "line").length = 2000
    ∧ ((applyEvents { initApp with mode := .operation "op" [] 0 }
          ((List.replicate 2000 "line" ++ ["last"]).map .opLog)).mode =
        .operation "op" ((List.replicate 2000 "line" ++ ["last"]).drop 500)
          (min 0 1501)
      ∧ ((List.replicate 2000 "line" ++ ["last"]).drop 500).length ≤ 2000
      ∧ min 0 1501 ≤
          ((List.replicate 2000 "line" ++ ["last"]).drop 500).length) :=
  ⟨rfl, by rw [List.length_replicate],
    operation_log_eviction { initApp with mode := .operation "op" [] 0 }
      "op" 0 (List.replicate 2000 "line") "last" rfl
      (by rw [List.length_replicate])⟩

theorem foldl_pushLog_no_evict :
    ∀ (lines logs : List String),
      logs.length + lines.length ≤ 300 →
      lines.foldl pushLog logs = logs ++ lines := by
  intro lines
  induction lines with
  | nil => intro logs h; simp
  | cons x xs ih =>
      intro logs h
      simp only [List.foldl_cons]
      have hstep : pushLog logs x = logs ++ [x] := by
        have hle : ¬ ((logs ++ [x]).length > 300) := by
          simp only [List.length_append, List.length_cons, List.length_nil]
          simp only [List.length_cons] at h
          omega
        simp only [pushLog]
        rw [if_neg hle]
      rw [hstep, ih (logs ++ [x])
        (by simp only [List.length_append, List.length_cons,
              List.length_nil] at h ⊢; omega)]
      simp

/-- C8: pushing 301 lines through `push_log` onto an empty log tail leaves
exactly the 201 ≤ 300 newest lines — the batch eviction fired once at line
301, dropping precisely the 100 oldest lines — and the newest line is the
last entry. -/
theorem log_tail_eviction :
    ∀ (xs : List String) (x : String),
      xs.length = 300 →
      (xs ++ [x]).foldl pushLog [] = (xs ++ [x]).drop 100
      ∧ ((xs ++ [x]).drop 100).length ≤ 300
      ∧ ((xs ++ [x]).drop 100).getLast? = some x := by
  intro xs x hlen
  have hsplit : (xs ++ [x]).foldl pushLog [] = pushLog xs x := by
    rw [List.foldl_append,
      foldl_pushLog_no_evict xs [] (by simp [hlen])]
    simp
  refine ⟨?_, by simp [hlen], ?_⟩
  · rw [hsplit]
    have h1 : (xs ++ [x]).length > 300 := by simp [hlen]
    simp only [pushLog]
    rw [if_pos h1]
  · rw [List.drop_append_of_le_length (by omega)]
    simp

/-- Witness for `log_tail_eviction`: 300 identical lines followed by a final
line. -/
theorem log_tail_eviction_witness :
    (List.replicate 300 "line").length = 300
    ∧ ((List.replicate 300 "line" ++ ["last"]).foldl pushLog [] =
        (List.replicate 300 "line" ++ ["last"]).drop 100
      ∧ ((List.replicate 300 "line" ++ ["last"]).drop 100).length ≤ 300
      ∧ ((List.replicate 300 "line" ++ ["last"]).drop 100).getLast? =
          some "last") :=
  ⟨by rw [List.length_replicate],
    log_tail_eviction (List.replicate 300 "line") "last"
      (by rw [List.length_replicate])⟩

/-- C9 (counterexample): the primary path also requires a successful exit,
not merely a non-empty parse — when the plain listing exits nonzero but its
stdout parses to the name `wget`, `list_installed` still takes the JSON
fallback and returns the fallback's content instead of that name. -/
theorem list_installed_nonzero_exit_with_names :
    parsePlainNames "wget\n" = [FormulaInfo.mkName "wget"]
    ∧ listInstalled (.ok false "wget\n")
        (.ok true (some [FormulaInfo.mkName "curl"])) =
        .ok [FormulaInfo.mkName "curl"] :=
  ⟨by decide, rfl⟩

/-- C9 (amended): `list_installed` returns the plain-listing names when the
first command spawns, exits successfully and parses to at least one name; it
consults the JSON fallback exactly when the first command spawned but exited
nonzero or parsed to zero names; a first-spawn failure is an immediate error
(no fallback), and the fallback errs on spawn failure, nonzero exit or a
malformed envelope, succeeding only on a decoded `{"formulae": [...]}`. -/
theorem list_installed_amended :
    (∀ (out : String) (second : SpawnResult (Option (List FormulaInfo))),
        parsePlainNames out ≠ [] →
        listInstalled (.ok true out) second = .ok (parsePlainNames out))
    ∧ (∀ (e : String) (second : SpawnResult (Option (List FormulaInfo))),
        isErr (listInstalled (.err e) second) = true)
    ∧ (∀ (st : Bool) (out : String)
        (second : SpawnResult (Option (List FormulaInfo))),
        st = false ∨ parsePlainNames out = [] →
        listInstalled (.ok st out) second = jsonFallback second)
    ∧ (∀ e, isErr (jsonFallback (.err e)) = true)
    ∧ (∀ d, isErr (jsonFallback (.ok false d)) = true)
    ∧ isErr (jsonFallback (.ok true none)) = true
    ∧ (∀ l, jsonFallback (.ok true (some l)) = .ok l) := by
  refine ⟨?_, fun e second => rfl, ?_, fun e => rfl, fun d => rfl, rfl,
    fun l => rfl⟩
  · intro out second h
    simp only [listInstalled]
    rw [if_pos ⟨by trivial, h⟩]
  · intro st out second h
    simp only [listInstalled]
    rw [if_neg]
    rintro ⟨hst, hne⟩
    rcases h with h | h
    · rw [h] at hst; exact Bool.false_ne_true hst
    · exact hne h

/-- Witness for `list_installed_amended`: a successful plain listing of one
name, and a nonzero-exit listing routed to the fallback. -/
theorem list_installed_amended_witness :
    (parsePlainNames "wget\n" ≠ []
      ∧ listInstalled (.ok true "wget\n") (.ok true none) =
          .ok (parsePlainNames "wget\n"))
    ∧ ((false = false ∨ parsePlainNames "wget\n" = [])
      ∧ listInstalled (.ok false "wget\n") (.ok true none) =
          jsonFallback (.ok true none)) :=
  ⟨⟨by decide, list_installed_amended.1 "wget\n" (.ok true none) (by decide)⟩,
    ⟨Or.inl rfl,
      list_installed_amended.2.2.1 false "wget\n" (.ok true none)
        (Or.inl rfl)⟩⟩

end HomebrewTui
